import Mathlib

/-!
# Verification of the Drafter live-migration engine

A shallow embedding of the migration-relevant code of the Drafter
repository (`cmd/drafter-silo-serve/main.go`, `pkg/roles/peer.go`),
together with proofs settling the frozen claims about it.

The source side (`drafter-silo-serve`) runs, per device, a goroutine that
sends `DevInfo`, migrates all blocks, and then enters a drain loop that
repeatedly takes the latest dirty blocks, sends `DirtyList` frames,
decides on VM suspension for the `memory` device, passes authority, and
finally sends `Completed`.  We model the per-device goroutine as a
sequential trace-producing function over the list of successive
`GetLatestDirty` results.
-/

namespace Drafter

/-- Device names.  Modelled from the spec: the constants live in
`pkg/config`, which is not part of the sources at hand; §6.3 of the spec
fixes the six device names `state`, `memory`, `disk`, `initramfs`,
`kernel`, `config`. -/
def StateName : String := "state"

/-- Modelled from the spec: the `memory` device name (`pkg/config`). -/
def MemoryName : String := "memory"

/-- Modelled from the spec: the `disk` device name (`pkg/config`). -/
def DiskName : String := "disk"

/-- Modelled from the spec: the `initramfs` device name (`pkg/config`). -/
def InitramfsName : String := "initramfs"

/-- Modelled from the spec: the `kernel` device name (`pkg/config`). -/
def KernelName : String := "kernel"

/-- Modelled from the spec: the `config` device name (`pkg/config`). -/
def ConfigName : String := "config"

/-- Observable actions of the per-device source goroutine of
`cmd/drafter-silo-serve/main.go`: the frames it sends on the device's
channel, plus the hypervisor flush request, the suspension request
(`suspendVM = true`), and the 500 ms sleep. -/
inductive Action where
  | sendDevInfo : Action
  | sendWriteAt (block : Nat) : Action
  | sendDirtyList (blocks : List Nat) : Action
  | sendAssumeAuthority : Action
  | sendCompleted : Action
  | msync : Action
  | requestSuspend : Action
  | sleep : Action
  deriving DecidableEq, Repr

/-- Mutable state of the drain loop in the per-device goroutine
(`main.go` lines 742-747): the shared `suspendVM` flag as last read by
this goroutine, the local `suspendedVM` and `passAuthority` flags, and
the `subsequentSyncs` counter. -/
structure LoopState where
  suspendVM : Bool
  suspendedVM : Bool
  passAuthority : Bool
  subsequentSyncs : Nat
  deriving DecidableEq, Repr

/-- The initial drain-loop state (`main.go` lines 742-747). -/
def initLoopState : LoopState :=
  { suspendVM := false, suspendedVM := false, passAuthority := false,
    subsequentSyncs := 0 }

/-- One iteration of the per-device drain loop (`main.go` lines 748-824),
sequentialised.  `ext` is true when another device's goroutine has set
the shared `suspendVM` flag before this iteration; `d` is the result of
`mig.GetLatestDirty()` (`none` models a nil slice).  Returns the actions
of this iteration and `none` when the loop breaks. -/
def step (name : String) (ext : Bool) (d : Option (List Nat))
    (s : LoopState) : List Action × Option LoopState :=
  -- shared-flag read at the top of the iteration
  let s0 := s.suspendVM || ext
  -- `if suspendVM && !suspendedVM { suspendedVM = true; ...; passAuthority = true }`
  let suspended := if s0 && !s.suspendedVM then true else s.suspendedVM
  let pass := if s0 && !s.suspendedVM then true else s.passAuthority
  -- `if !suspendVM && eres.resource.name == iconfig.MemoryName { runner.Msync(ctx) }`
  let acts2 : List Action := if !s0 && name == MemoryName then [.msync] else []
  -- `blocks := mig.GetLatestDirty(); ...; if suspendedVM && !passAuthority { break }`
  if suspended && !pass then
    (acts2, none)
  else
    -- `if len(blocks) <= 200 && !suspendedVM { if name == memory { ... } }`
    let small := (d.getD []).length ≤ 200
    let hit :=
      small && !suspended && name == MemoryName && decide (s.subsequentSyncs + 1 > 10)
    let acts3 : List Action :=
      if small && !suspended && name == MemoryName then
        if s.subsequentSyncs + 1 > 10 then [.requestSuspend] else [.sleep]
      else []
    let syncs :=
      if small && !suspended && name == MemoryName then s.subsequentSyncs + 1
      else s.subsequentSyncs
    let suspend := if hit then true else s0
    -- `if blocks != nil { dst.DirtyList(blocks) }`
    let acts4 : List Action := match d with
      | some bs => [.sendDirtyList bs]
      | none => []
    -- `if passAuthority { passAuthority = false; dst.SendEvent(EventAssumeAuthority) }`
    let acts5 : List Action := if pass then [.sendAssumeAuthority] else []
    let pass2 := if pass then false else pass
    -- `mig.MigrateDirty(blocks)` (in either the background or the foreground branch)
    let acts6 : List Action := (d.getD []).map .sendWriteAt
    (acts2 ++ acts3 ++ acts4 ++ acts5 ++ acts6,
      some { suspendVM := suspend, suspendedVM := suspended,
             passAuthority := pass2, subsequentSyncs := syncs })

/-- Run the drain loop over a list of per-iteration inputs (external
suspend signal, `GetLatestDirty` result).  When the loop breaks, the
goroutine sends `Completed` after `mig.WaitForCompletion()`
(`main.go` lines 826-832). -/
def runLoop (name : String) : List (Bool × Option (List Nat)) → LoopState → List Action
  | [], _ => []
  | (ext, d) :: rest, s =>
    match step name ext d s with
    | (acts, none) => acts ++ [.sendCompleted]
    | (acts, some s2) => acts ++ runLoop name rest s2

/-- The full per-device source goroutine (`main.go` lines 640-833):
`dst.SendDevInfo` first, then the initial `mig.Migrate` of all blocks
(`initialBlocks`), then the drain loop. -/
def deviceRun (name : String) (initialBlocks : List Nat)
    (inputs : List (Bool × Option (List Nat))) : List Action :=
  .sendDevInfo :: (initialBlocks.map .sendWriteAt ++ runLoop name inputs initLoopState)

/-- After `AssumeAuthority` on a device channel: no further `DevInfo`,
`DirtyList` or `AssumeAuthority`, and `Completed` ends the trace. -/
def c1Tail : List Action → Bool
  | [] => true
  | .sendDevInfo :: _ => false
  | .sendDirtyList _ :: _ => false
  | .sendAssumeAuthority :: _ => false
  | .sendCompleted :: rest => rest.isEmpty
  | _ :: rest => c1Tail rest

/-- Frame discipline after the leading `DevInfo`: no second `DevInfo`,
`Completed` ends the trace, and after `AssumeAuthority` the rest obeys
`c1Tail`. -/
def c1Check : List Action → Bool
  | [] => true
  | .sendDevInfo :: _ => false
  | .sendCompleted :: rest => rest.isEmpty
  | .sendAssumeAuthority :: rest => c1Tail rest
  | _ :: rest => c1Check rest


/-- A drain is small when it returned at most 200 blocks (`len(blocks) <= 200`;
a nil drain has length 0). -/
def smallDrain (d : Option (List Nat)) : Bool := (d.getD []).length ≤ 200

/-- Number of small drains in a drain sequence. -/
def countSmall (ds : List (Option (List Nat))) : Nat := ds.countP smallDrain

/-- Longest run of consecutive small drains in a drain sequence. -/
def maxConsecSmall (ds : List (Option (List Nat))) : Nat :=
  (ds.foldl
    (fun p d => if smallDrain d then (p.1 + 1, max p.2 (p.1 + 1)) else (0, p.2))
    ((0 : Nat), (0 : Nat))).2

/-- Drain-loop inputs with no external suspend signal (for the `memory`
device no other goroutine ever sets `suspendVM`). -/
def noSignal (ds : List (Option (List Nat))) : List (Bool × Option (List Nat)) :=
  ds.map (fun d => (false, d))

/-- A drain sequence with 11 small drains of which at most 6 are consecutive:
5 small, one of 201 blocks, 6 small. -/
def cexDrains : List (Option (List Nat)) :=
  List.replicate 5 (some []) ++ [some (List.range 201)] ++ List.replicate 6 (some [])


/-- 2^64: Go's uint64 arithmetic wraps at this modulus. -/
def u64Mod : Nat := 2 ^ 64

/-- The `HandleNeedAt` callback of the source (`main.go` lines 646-662):
`endOffset` is clamped to the device size, the start block divides the
offset by the device's block size, the end block divides `endOffset - 1`
(computed in uint64 arithmetic, so `endOffset = 0` wraps) by the block
size; `PrioritiseBlock` is called for each block in `[startBlock,
endBlock)`. -/
def needAtBlocks (size blockSize offset length : Nat) : List Nat :=
  let endOffset := min (offset + length) size
  let startBlock := offset / blockSize
  let endBlock := (endOffset + (u64Mod - 1)) % u64Mod / blockSize + 1
  List.range' startBlock (endBlock - startBlock)

/-- The `HandleDontNeedAt` callback of the source (`main.go` lines
664-680): identical to `needAtBlocks` except that both divisions use
`eres.storage.Size()` — the device size — instead of the block size;
`Remove` is called for each block in the resulting range. -/
def dontNeedAtBlocks (size blockSize offset length : Nat) : List Nat :=
  let endOffset := min (offset + length) size
  let startBlock := offset / size
  let endBlock := (endOffset + (u64Mod - 1)) % u64Mod / size + 1
  List.range' startBlock (endBlock - startBlock)

/-- The claim's (and spec §4.6.4's) semantics for `DontNeedAt`: the block
range of `[offset, min(offset+length, size))` computed by dividing byte
offsets by the device's `block_size`. -/
def dontNeedAtBlocksSpec (size blockSize offset length : Nat) : List Nat :=
  let endOffset := min (offset + length) size
  List.range' (offset / blockSize)
    ((endOffset - 1) / blockSize + 1 - offset / blockSize)

/-- Block `b` covers part of the byte range `[offset, endOffset)` for
block size `bs`: the intersection of `[b*bs, (b+1)*bs)` with the range is
non-empty. -/
def coversBlock (bs offset endOffset b : Nat) : Prop :=
  max offset (b * bs) < min endOffset ((b + 1) * bs)

instance coversBlockDecidable (bs offset endOffset b : Nat) :
    Decidable (coversBlock bs offset endOffset b) :=
  inferInstanceAs (Decidable (_ < _))


/-- Events the destination's per-connection handlers of `MigrateFrom`
receive (`pkg/roles/peer.go` lines 241-437), tagged with the protocol
stream index of the device they belong to. -/
inductive DestEvent where
  | devInfo (index : Nat) (name : String) : DestEvent
  | assumeAuthority (index : Nat) : DestEvent
  | allDevicesSent : DestEvent
  | completed (index : Nat) : DestEvent
  deriving DecidableEq, Repr

/-- Hook invocations and one-shot context cancellations observable from
`MigrateFrom`'s handlers (`MigrateFromHooks`, plus the
`cancelAllDevicesReadyCtx` signal). -/
inductive DestHook where
  | deviceReceived (index : Nat) (name : String) : DestHook
  | deviceAuthorityReceived (index : Nat) : DestHook
  | deviceMigrationCompleted (index : Nat) : DestHook
  | allDevicesReceived : DestHook
  | allDevicesReady : DestHook
  deriving DecidableEq, Repr

/-- State of `MigrateFrom`'s event processing: the
`receivedButNotReadyDevices` atomic counter (`atomic.Int32`, modelled as
an unbounded integer) and whether each of the two one-shot contexts has
been cancelled. -/
structure DestState where
  receivedButNotReady : Int
  allReceivedFired : Bool
  allReadyFired : Bool
  deriving DecidableEq, Repr

/-- Initial destination state (counter zero, nothing cancelled). -/
def initDestState : DestState :=
  { receivedButNotReady := 0, allReceivedFired := false, allReadyFired := false }

/-- Processing of one received event (`peer.go`: the DevInfo callback,
lines 252-374, increments the counter and fires `OnDeviceReceived`; the
event handler, lines 396-426, decrements it on
`EventCustomTransferAuthority` and cancels `allDevicesReadyCtx` when the
result is `<= 0`, cancels `allDevicesReceivedCtx` and fires
`OnAllDevicesReceived` on `EventCustomAllDevicesSent`, and fires
`OnDeviceMigrationCompleted` on `EventCompleted`).  Cancelling an
already-cancelled context is a no-op, so the `allDevicesReady` signal is
recorded only on its first firing. -/
def destStep (s : DestState) (e : DestEvent) : DestState × List DestHook :=
  match e with
  | .devInfo index name =>
    ({ s with receivedButNotReady := s.receivedButNotReady + 1 },
     [.deviceReceived index name])
  | .assumeAuthority index =>
    let c := s.receivedButNotReady - 1
    if c ≤ 0 then
      ({ s with receivedButNotReady := c, allReadyFired := true },
       (if s.allReadyFired then [] else [.allDevicesReady]) ++
         [.deviceAuthorityReceived index])
    else
      ({ s with receivedButNotReady := c }, [.deviceAuthorityReceived index])
  | .allDevicesSent =>
    ({ s with allReceivedFired := true }, [.allDevicesReceived])
  | .completed index => (s, [.deviceMigrationCompleted index])

/-- Process a list of events from a given state, collecting hooks. -/
def runDestFrom (s : DestState) : List DestEvent → DestState × List DestHook
  | [] => (s, [])
  | e :: rest =>
    let p := destStep s e
    let q := runDestFrom p.1 rest
    (q.1, p.2 ++ q.2)

/-- Process a list of events from the initial state. -/
def runDest (es : List DestEvent) : DestState × List DestHook :=
  runDestFrom initDestState es

/-- `MigrateFrom` returns its handle — on which `Resume` may then be
called — only once both `allDevicesReceivedCtx` and `allDevicesReadyCtx`
have been cancelled (`peer.go` lines 506-511 and 577-582). -/
def migrateFromReturned (es : List DestEvent) : Bool :=
  (runDest es).1.allReceivedFired && (runDest es).1.allReadyFired

/-- The device indices announced by `DevInfo` frames, in order. -/
def devIdxs : List DestEvent → List Nat
  | [] => []
  | .devInfo i _ :: rest => i :: devIdxs rest
  | .assumeAuthority _ :: rest => devIdxs rest
  | .allDevicesSent :: rest => devIdxs rest
  | .completed _ :: rest => devIdxs rest

/-- The device indices of `AssumeAuthority` events, in order. -/
def authIdxs : List DestEvent → List Nat
  | [] => []
  | .assumeAuthority i :: rest => i :: authIdxs rest
  | .devInfo _ _ :: rest => authIdxs rest
  | .allDevicesSent :: rest => authIdxs rest
  | .completed _ :: rest => authIdxs rest

/-- Is the event an `AssumeAuthority` event? -/
def isAuthority : DestEvent → Bool
  | .assumeAuthority _ => true
  | _ => false

/-- Is the event a `DevInfo` frame? -/
def isDevInfo : DestEvent → Bool
  | .devInfo _ _ => true
  | _ => false

/-- Well-formedness scanner for a destination event stream, recording
the announced (`seenD`) and authority-transferred (`seenA`) indices and
whether an authority event has occurred (`sawA`): each device announces
itself at most once, hands over authority at most once and only after
its announcement (per-channel FIFO), and no announcement follows any
authority handover (the source passes authority only after suspension,
which happens after every device announced itself and finished its
initial migration). -/
def wfCheck (seenD seenA : List Nat) (sawA : Bool) : List DestEvent → Bool
  | [] => true
  | .devInfo i _ :: rest =>
    !sawA && decide (i ∉ seenD) && wfCheck (i :: seenD) seenA sawA rest
  | .assumeAuthority i :: rest =>
    decide (i ∈ seenD) && decide (i ∉ seenA) && wfCheck seenD (i :: seenA) true rest
  | .allDevicesSent :: rest => wfCheck seenD seenA sawA rest
  | .completed _ :: rest => wfCheck seenD seenA sawA rest

/-- Well-formedness of a full stream. -/
def wfStream (es : List DestEvent) : Bool := wfCheck [] [] false es

/-- No `DevInfo` follows any `AllDevicesSent` event in the stream: the
source announces every device before it declares that all devices were
sent. -/
def devInfoBeforeSent : List DestEvent → Bool
  | [] => true
  | .allDevicesSent :: rest =>
    rest.all (fun e => !isDevInfo e) && devInfoBeforeSent rest
  | .devInfo _ _ :: rest => devInfoBeforeSent rest
  | .assumeAuthority _ :: rest => devInfoBeforeSent rest
  | .completed _ :: rest => devInfoBeforeSent rest


/-- Error value for an unknown device name (`ErrUnknownDeviceName`,
`pkg/roles/peer.go` line 286 via `panic`). -/
def ErrUnknownDeviceName : String := "unknown device name"

/-- The per-device backing file paths `MigrateFrom` is called with. -/
structure PeerPaths where
  statePath : String
  memoryPath : String
  initramfsPath : String
  kernelPath : String
  diskPath : String
  configPath : String
  deriving DecidableEq, Repr

/-- The `switch di.Name` of the DevInfo callback (`peer.go` lines
259-283): the backing path for each of the six fixed device names; any
other name leaves the path at its zero value `""`. -/
def lookupDevicePath (paths : PeerPaths) (name : String) : String :=
  if name = ConfigName then paths.configPath
  else if name = DiskName then paths.diskPath
  else if name = InitramfsName then paths.initramfsPath
  else if name = KernelName then paths.kernelPath
  else if name = MemoryName then paths.memoryPath
  else if name = StateName then paths.statePath
  else ""

/-- Side effects of the DevInfo callback up to returning the remote
waiting cache (`peer.go` lines 289-373). -/
inductive DevInfoEffect where
  | recordReceived (name : String) : DevInfoEffect
  | mkdirAll (path : String) : DevInfoEffect
  | createFile (path : String) (size : Nat) : DevInfoEffect
  | exposeNbd : DevInfoEffect
  deriving DecidableEq, Repr

/-- The DevInfo callback of `MigrateFrom` (`peer.go` lines 252-374):
resolve the backing path from the device name; if the path is empty
after trimming whitespace (`strings.TrimSpace(path) == ""`, i.e. the
path consists only of whitespace), panic with `ErrUnknownDeviceName` —
before any directory or file is created; otherwise record the device,
create its directory and backing file of the announced size, and expose
it over NBD. -/
def receiveDevInfo (paths : PeerPaths) (name : String) (size : Nat) :
    Except String (List DevInfoEffect) :=
  let path := lookupDevicePath paths name
  if path.data.all Char.isWhitespace then .error ErrUnknownDeviceName
  else .ok [.recordReceived name, .mkdirAll path, .createFile path size,
    .exposeNbd]

/-- A teardown step of `migratedPeer.Close` (`peer.go` lines 452-476). -/
inductive TeardownStep where
  | runnerClose : TeardownStep
  | waitCall : TeardownStep
  | deviceClose (index : Nat) : TeardownStep
  deriving DecidableEq, Repr

/-- Go `defer` registration: each registered call is pushed onto the
defer stack. -/
def pushDefers (stack : List (TeardownStep × Option String))
    (items : List (TeardownStep × Option String)) :
    List (TeardownStep × Option String) :=
  items.foldl (fun st it => it :: st) stack

/-- Running the defer stack from the top, collecting the executed steps
and the non-nil errors in execution order. -/
def execDefers : List (TeardownStep × Option String) →
    List TeardownStep × List String
  | [] => ([], [])
  | (st, e) :: rest =>
    let q := execDefers rest
    (st :: q.1, e.toList ++ q.2)

/-- Inputs of `migratedPeer.Close`: the error of `runner.Close()`, the
error of `migratedPeer.Wait()`, and the registered `deviceCloseFuncs`
(for each, an identifying index — `device.Close` and `device.Shutdown`
are separate entries — and the error it returns). -/
structure CloseInput where
  runnerErr : Option String
  waitErr : Option String
  deviceCloseFuncs : List (Nat × Option String)
  deriving DecidableEq, Repr

/-- `migratedPeer.Close` (`peer.go` lines 452-476): close the runner
first and join its error into `errs`; defer the `Wait` call; defer every
registered device close function in slice order (so they run in reverse
registration order); on return run the defer stack, joining each error.
The returned error list models the `errors.Join` aggregate: `[]` is a
nil error, anything else is the single error value holding exactly the
listed sub-failures. -/
def migratedPeerClose (inp : CloseInput) : List TeardownStep × List String :=
  let deferStack := pushDefers [(TeardownStep.waitCall, inp.waitErr)]
    (inp.deviceCloseFuncs.map (fun f => (TeardownStep.deviceClose f.1, f.2)))
  let q := execDefers deferStack
  (TeardownStep.runnerClose :: q.1, inp.runnerErr.toList ++ q.2)

/-- The two branches of the teardown watcher goroutine (`peer.go` lines
486-504): failure (the internal context was cancelled before all devices
were ready) and the happy path (all devices ready, then the hypervisor
context ended). -/
inductive TerminationPath where
  | internalFailure : TerminationPath
  | hypervisorDone : TerminationPath
  deriving DecidableEq, Repr

/-- Both branches of the watcher goroutine call `migratedPeer.Close`. -/
def teardown (p : TerminationPath) (inp : CloseInput) :
    List TeardownStep × List String :=
  match p with
  | .internalFailure => migratedPeerClose inp
  | .hypervisorDone => migratedPeerClose inp

/-- Effects of the Waiting Cache hint-forwarding callbacks
(`peer.go` lines 310-335). -/
inductive HintEffect where
  | sendNeedAt (offset : Int) (length : Int) : HintEffect
  | sendDontNeedAt (offset : Int) (length : Int) : HintEffect
  deriving DecidableEq, Repr

/-- The `local.NeedAt` callback (`peer.go` lines 310-322): when
`protocolCtx` is already cancelled the select hits its `Done` case and
the callback returns without touching the protocol; otherwise it
forwards the hint via `from.NeedAt`, panicking with that call's error if
any (`sendErr`). -/
def needAtHook (protocolCancelled : Bool) (sendErr : Option String)
    (offset length : Int) : List HintEffect × Option String :=
  if protocolCancelled then ([], none)
  else ([.sendNeedAt offset length], sendErr)

/-- The `local.DontNeedAt` callback (`peer.go` lines 323-335), same
shape as `needAtHook`. -/
def dontNeedAtHook (protocolCancelled : Bool) (sendErr : Option String)
    (offset length : Int) : List HintEffect × Option String :=
  if protocolCancelled then ([], none)
  else ([.sendDontNeedAt offset length], sendErr)

/-! ## Theorems -/

lemma c1Tail_writeAts (bs : List Nat) (l : List Action) :
    c1Tail (bs.map .sendWriteAt ++ l) = c1Tail l := by
  induction bs with
  | nil => rfl
  | cons b bs ih => simpa [c1Tail] using ih

lemma c1Check_writeAts (bs : List Nat) (l : List Action) :
    c1Check (bs.map .sendWriteAt ++ l) = c1Check l := by
  induction bs with
  | nil => rfl
  | cons b bs ih => simpa [c1Check] using ih

lemma step_halt (name : String) (ext : Bool) (d : Option (List Nat)) (s : LoopState)
    (h1 : s.suspendedVM = true) (h2 : s.passAuthority = false) :
    step name ext d s =
      ((if !(s.suspendVM || ext) && name == MemoryName then [.msync] else []), none) := by
  simp [step, h1, h2]

lemma step_suspend (name : String) (ext : Bool) (d : Option (List Nat)) (s : LoopState)
    (h1 : s.suspendedVM = false) (h0 : (s.suspendVM || ext) = true) :
    step name ext d s =
      ((match d with | some bs => [Action.sendDirtyList bs] | none => []) ++
        Action.sendAssumeAuthority :: (d.getD []).map Action.sendWriteAt,
       some { suspendVM := true, suspendedVM := true, passAuthority := false,
              subsequentSyncs := s.subsequentSyncs }) := by
  simp [step, h1, h0]

lemma step_normal (name : String) (ext : Bool) (d : Option (List Nat)) (s : LoopState)
    (h1 : s.suspendedVM = false) (h0 : (s.suspendVM || ext) = false)
    (h2 : s.passAuthority = false) :
    step name ext d s =
      ((if name == MemoryName then [Action.msync] else []) ++
        (if (decide ((d.getD []).length ≤ 200)) && name == MemoryName then
          (if s.subsequentSyncs + 1 > 10 then [Action.requestSuspend] else [Action.sleep])
         else []) ++
        (match d with | some bs => [Action.sendDirtyList bs] | none => []) ++
        (d.getD []).map Action.sendWriteAt,
       some { suspendVM := (decide ((d.getD []).length ≤ 200)) &&
                 (decide (name = MemoryName)) && decide (s.subsequentSyncs + 1 > 10),
              suspendedVM := false, passAuthority := false,
              subsequentSyncs := if (decide ((d.getD []).length ≤ 200)) && name == MemoryName
                then s.subsequentSyncs + 1 else s.subsequentSyncs }) := by
  simp [step, h1, h0, h2]


lemma runLoop_c1Tail (name : String) (inputs : List (Bool × Option (List Nat))) (s : LoopState)
    (h1 : s.suspendedVM = true) (h2 : s.passAuthority = false) :
    c1Tail (runLoop name inputs s) = true := by
  cases inputs with
  | nil => rfl
  | cons p rest =>
    obtain ⟨ext, d⟩ := p
    simp only [runLoop, step_halt name ext d s h1 h2]
    cases hb : (!(s.suspendVM || ext) && name == MemoryName) <;> simp [hb, c1Tail]

lemma runLoop_c1Check (name : String) (inputs : List (Bool × Option (List Nat))) :
    ∀ s : LoopState, s.passAuthority = false → c1Check (runLoop name inputs s) = true := by
  induction inputs with
  | nil => intro s _; rfl
  | cons p rest ih =>
    obtain ⟨ext, d⟩ := p
    intro s h2
    by_cases h1 : s.suspendedVM = true
    · simp only [runLoop, step_halt name ext d s h1 h2]
      cases hb : (!(s.suspendVM || ext) && name == MemoryName) <;> simp [hb, c1Check]
    · replace h1 : s.suspendedVM = false := by simpa using h1
      by_cases h0 : (s.suspendVM || ext) = true
      · simp only [runLoop, step_suspend name ext d s h1 h0]
        cases d <;>
          simp [c1Check, c1Tail_writeAts, runLoop_c1Tail]
      · replace h0 : (s.suspendVM || ext) = false := by
          simpa using h0
        simp only [runLoop, step_normal name ext d s h1 h0 h2]
        have hbd : ∀ c : Bool, (name == MemoryName) = c → (decide (name = MemoryName)) = c := by
          intro c hc; simpa using hc
        cases d with
        | none =>
          cases hb : (name == MemoryName) <;>
            by_cases hsync : s.subsequentSyncs + 1 > 10 <;>
              (simp [hb, hbd _ hb, hsync, c1Check, c1Check_writeAts]; refine ih _ ?_; rfl)
        | some val =>
          cases hb : (name == MemoryName) <;>
            by_cases h200 : val.length ≤ 200 <;>
            by_cases hsync : s.subsequentSyncs + 1 > 10 <;>
              (simp [hb, hbd _ hb, h200, hsync, c1Check, c1Check_writeAts]; refine ih _ ?_; rfl)


lemma c1Tail_no_dirty : ∀ l : List Action, c1Tail l = true →
    ∀ bs : List Nat, Action.sendDirtyList bs ∉ l := by
  intro l
  induction l with
  | nil => intro _ bs; simp
  | cons a rest ih =>
    intro h bs
    cases a with
    | sendDevInfo => simp [c1Tail] at h
    | sendDirtyList bs2 => simp [c1Tail] at h
    | sendAssumeAuthority => simp [c1Tail] at h
    | sendCompleted =>
      have hr : rest = [] := by simpa [c1Tail, List.isEmpty_iff] using h
      simp [hr]
    | sendWriteAt b => simp [ih (by simpa [c1Tail] using h) bs]
    | msync => simp [ih (by simpa [c1Tail] using h) bs]
    | sleep => simp [ih (by simpa [c1Tail] using h) bs]
    | requestSuspend => simp [ih (by simpa [c1Tail] using h) bs]

lemma c1Tail_no_auth : ∀ l : List Action, c1Tail l = true →
    Action.sendAssumeAuthority ∉ l := by
  intro l
  induction l with
  | nil => intro _; simp
  | cons a rest ih =>
    intro h
    cases a with
    | sendDevInfo => simp [c1Tail] at h
    | sendDirtyList bs2 => simp [c1Tail] at h
    | sendAssumeAuthority => simp [c1Tail] at h
    | sendCompleted =>
      have hr : rest = [] := by simpa [c1Tail, List.isEmpty_iff] using h
      simp [hr]
    | sendWriteAt b => simp [ih (by simpa [c1Tail] using h)]
    | msync => simp [ih (by simpa [c1Tail] using h)]
    | sleep => simp [ih (by simpa [c1Tail] using h)]
    | requestSuspend => simp [ih (by simpa [c1Tail] using h)]

lemma c1Tail_no_devInfo : ∀ l : List Action, c1Tail l = true →
    Action.sendDevInfo ∉ l := by
  intro l
  induction l with
  | nil => intro _; simp
  | cons a rest ih =>
    intro h
    cases a with
    | sendDevInfo => simp [c1Tail] at h
    | sendDirtyList bs2 => simp [c1Tail] at h
    | sendAssumeAuthority => simp [c1Tail] at h
    | sendCompleted =>
      have hr : rest = [] := by simpa [c1Tail, List.isEmpty_iff] using h
      simp [hr]
    | sendWriteAt b => simp [ih (by simpa [c1Tail] using h)]
    | msync => simp [ih (by simpa [c1Tail] using h)]
    | sleep => simp [ih (by simpa [c1Tail] using h)]
    | requestSuspend => simp [ih (by simpa [c1Tail] using h)]


lemma c1Check_no_devInfo : ∀ l : List Action, c1Check l = true →
    Action.sendDevInfo ∉ l := by
  intro l
  induction l with
  | nil => intro _; simp
  | cons a rest ih =>
    intro h
    cases a with
    | sendDevInfo => simp [c1Check] at h
    | sendAssumeAuthority =>
      simp [c1Tail_no_devInfo rest (by simpa [c1Check] using h)]
    | sendCompleted =>
      have hr : rest = [] := by simpa [c1Check, List.isEmpty_iff] using h
      simp [hr]
    | sendDirtyList bs2 => simp [ih (by simpa [c1Check] using h)]
    | sendWriteAt b => simp [ih (by simpa [c1Check] using h)]
    | msync => simp [ih (by simpa [c1Check] using h)]
    | sleep => simp [ih (by simpa [c1Check] using h)]
    | requestSuspend => simp [ih (by simpa [c1Check] using h)]

lemma c1Check_auth_count : ∀ l : List Action, c1Check l = true →
    l.count Action.sendAssumeAuthority ≤ 1 := by
  intro l
  induction l with
  | nil => intro _; simp
  | cons a rest ih =>
    intro h
    cases a with
    | sendDevInfo => simp [c1Check] at h
    | sendAssumeAuthority =>
      have hz : Action.sendAssumeAuthority ∉ rest :=
        c1Tail_no_auth rest (by simpa [c1Check] using h)
      simp [List.count_cons, List.count_eq_zero.mpr hz]
    | sendCompleted =>
      have hr : rest = [] := by simpa [c1Check, List.isEmpty_iff] using h
      simp [hr, List.count_cons]
    | sendDirtyList bs2 =>
      simpa [List.count_cons] using ih (by simpa [c1Check] using h)
    | sendWriteAt b =>
      simpa [List.count_cons] using ih (by simpa [c1Check] using h)
    | msync =>
      simpa [List.count_cons] using ih (by simpa [c1Check] using h)
    | sleep =>
      simpa [List.count_cons] using ih (by simpa [c1Check] using h)
    | requestSuspend =>
      simpa [List.count_cons] using ih (by simpa [c1Check] using h)

lemma c1Check_dirty_before_auth : ∀ l : List Action, c1Check l = true →
    ∀ (pre : List Action) (bs : List Nat) (post : List Action),
      l = pre ++ Action.sendDirtyList bs :: post →
      Action.sendAssumeAuthority ∉ pre := by
  intro l
  induction l with
  | nil =>
    intro _ pre bs post heq
    exact absurd heq (by simp)
  | cons a rest ih =>
    intro h pre bs post heq
    cases pre with
    | nil => simp
    | cons b pre2 =>
      simp only [List.cons_append, List.cons.injEq] at heq
      obtain ⟨hab, hrest⟩ := heq
      subst hab
      cases a with
      | sendDevInfo => simp [c1Check] at h
      | sendAssumeAuthority =>
        have hmem : Action.sendDirtyList bs ∈ rest := by
          rw [hrest]; simp
        exact absurd hmem (c1Tail_no_dirty rest (by simpa [c1Check] using h) bs)
      | sendCompleted =>
        have hr : rest = [] := by simpa [c1Check, List.isEmpty_iff] using h
        rw [hr] at hrest
        exact absurd hrest (by simp)
      | sendDirtyList bs2 =>
        simp [ih (by simpa [c1Check] using h) pre2 bs post hrest]
      | sendWriteAt bk =>
        simp [ih (by simpa [c1Check] using h) pre2 bs post hrest]
      | msync =>
        simp [ih (by simpa [c1Check] using h) pre2 bs post hrest]
      | sleep =>
        simp [ih (by simpa [c1Check] using h) pre2 bs post hrest]
      | requestSuspend =>
        simp [ih (by simpa [c1Check] using h) pre2 bs post hrest]

lemma c1Tail_completed_last : ∀ l : List Action, c1Tail l = true →
    ∀ pre post : List Action, l = pre ++ Action.sendCompleted :: post → post = [] := by
  intro l
  induction l with
  | nil =>
    intro _ pre post heq
    exact absurd heq (by simp)
  | cons a rest ih =>
    intro h pre post heq
    cases pre with
    | nil =>
      simp only [List.nil_append, List.cons.injEq] at heq
      obtain ⟨ha, hr⟩ := heq
      subst ha
      rw [← hr]
      simpa [c1Tail, List.isEmpty_iff] using h
    | cons b pre2 =>
      simp only [List.cons_append, List.cons.injEq] at heq
      obtain ⟨hab, hrest⟩ := heq
      subst hab
      cases a with
      | sendDevInfo => simp [c1Tail] at h
      | sendDirtyList bs2 => simp [c1Tail] at h
      | sendAssumeAuthority => simp [c1Tail] at h
      | sendCompleted =>
        have hr : rest = [] := by simpa [c1Tail, List.isEmpty_iff] using h
        rw [hr] at hrest
        exact absurd hrest (by simp)
      | sendWriteAt bk => exact ih (by simpa [c1Tail] using h) pre2 post hrest
      | msync => exact ih (by simpa [c1Tail] using h) pre2 post hrest
      | sleep => exact ih (by simpa [c1Tail] using h) pre2 post hrest
      | requestSuspend => exact ih (by simpa [c1Tail] using h) pre2 post hrest

lemma c1Check_completed_last : ∀ l : List Action, c1Check l = true →
    ∀ pre post : List Action, l = pre ++ Action.sendCompleted :: post → post = [] := by
  intro l
  induction l with
  | nil =>
    intro _ pre post heq
    exact absurd heq (by simp)
  | cons a rest ih =>
    intro h pre post heq
    cases pre with
    | nil =>
      simp only [List.nil_append, List.cons.injEq] at heq
      obtain ⟨ha, hr⟩ := heq
      subst ha
      rw [← hr]
      simpa [c1Check, List.isEmpty_iff] using h
    | cons b pre2 =>
      simp only [List.cons_append, List.cons.injEq] at heq
      obtain ⟨hab, hrest⟩ := heq
      subst hab
      cases a with
      | sendDevInfo => simp [c1Check] at h
      | sendAssumeAuthority =>
        exact c1Tail_completed_last rest (by simpa [c1Check] using h) pre2 post hrest
      | sendCompleted =>
        have hr : rest = [] := by simpa [c1Check, List.isEmpty_iff] using h
        rw [hr] at hrest
        exact absurd hrest (by simp)
      | sendDirtyList bs2 => exact ih (by simpa [c1Check] using h) pre2 post hrest
      | sendWriteAt bk => exact ih (by simpa [c1Check] using h) pre2 post hrest
      | msync => exact ih (by simpa [c1Check] using h) pre2 post hrest
      | sleep => exact ih (by simpa [c1Check] using h) pre2 post hrest
      | requestSuspend => exact ih (by simpa [c1Check] using h) pre2 post hrest

/-- C1: on its channel, the per-device source goroutine of
`drafter-silo-serve` sends `DevInfo` strictly first (and never again);
every `DirtyList` — in particular the final pre-handoff one — precedes
the `AssumeAuthority` event, which is sent at most once; and `Completed`,
when sent, is the last frame.  The post-handoff residual `WriteAt`
frames (the final dirty blocks) follow `AssumeAuthority` by design; all
`WriteAt` frames follow `DevInfo` since `DevInfo` is the very first
frame. -/
theorem source_device_frame_order (name : String) (initialBlocks : List Nat)
    (inputs : List (Bool × Option (List Nat))) :
    ∃ rest, deviceRun name initialBlocks inputs = Action.sendDevInfo :: rest ∧
      Action.sendDevInfo ∉ rest ∧
      (∀ (pre : List Action) (bs : List Nat) (post : List Action),
        rest = pre ++ Action.sendDirtyList bs :: post →
        Action.sendAssumeAuthority ∉ pre) ∧
      (∀ pre post : List Action,
        rest = pre ++ Action.sendCompleted :: post → post = []) ∧
      rest.count Action.sendAssumeAuthority ≤ 1 := by
  have hc : c1Check (initialBlocks.map Action.sendWriteAt ++
      runLoop name inputs initLoopState) = true := by
    rw [c1Check_writeAts]
    exact runLoop_c1Check name inputs initLoopState rfl
  exact ⟨_, rfl, c1Check_no_devInfo _ hc,
    fun pre bs post heq => c1Check_dirty_before_auth _ hc pre bs post heq,
    fun pre post heq => c1Check_completed_last _ hc pre post heq,
    c1Check_auth_count _ hc⟩

/-- C9: in every iteration of the drain loop, the hypervisor memory
flush (`runner.Msync`) is requested exactly once if the device is the
`memory` device and the shared `suspendVM` flag is still false (the VM
is still running), and never otherwise — in particular never for another
device and never once suspension has been requested. -/
theorem msync_exactly_memory_unsuspended (name : String) (ext : Bool)
    (d : Option (List Nat)) (s : LoopState) :
    (step name ext d s).1.count Action.msync =
      if name = MemoryName ∧ s.suspendVM = false ∧ ext = false then 1 else 0 := by
  by_cases hname : name = MemoryName
  · subst hname
    cases hsv : s.suspendVM <;> cases ext <;> cases hsd : s.suspendedVM <;>
      cases hpa : s.passAuthority <;> cases d <;>
      by_cases hsync : s.subsequentSyncs + 1 > 10 <;>
        simp [step, hsv, hsd, hpa, hsync, List.count_append, List.count_cons,
          List.count_eq_zero, List.mem_map]
  · have hbeq : (name == MemoryName) = false := by
      simpa using hname
    cases hsv : s.suspendVM <;> cases ext <;> cases hsd : s.suspendedVM <;>
      cases hpa : s.passAuthority <;> cases d <;>
      by_cases hsync : s.subsequentSyncs + 1 > 10 <;>
        simp [step, hbeq, hname, hsv, hsd, hpa, hsync, List.count_append,
          List.count_cons, List.count_eq_zero, List.mem_map]

lemma step_no_suspend_nonmem (name : String) (hname : name ≠ MemoryName)
    (ext : Bool) (d : Option (List Nat)) (s : LoopState) :
    Action.requestSuspend ∉ (step name ext d s).1 := by
  have hbeq : (name == MemoryName) = false := by simpa using hname
  cases hsv : s.suspendVM <;> cases ext <;> cases hsd : s.suspendedVM <;>
    cases hpa : s.passAuthority <;> cases d <;>
      simp [step, hbeq, hsv, hsd, hpa, List.mem_map]

lemma step_syncs_nonmem (name : String) (hname : name ≠ MemoryName)
    (ext : Bool) (d : Option (List Nat)) (s s2 : LoopState)
    (h : (step name ext d s).2 = some s2) :
    s2.subsequentSyncs = s.subsequentSyncs := by
  have hbeq : (name == MemoryName) = false := by simpa using hname
  cases hsv : s.suspendVM <;> cases ext <;> cases hsd : s.suspendedVM <;>
    cases hpa : s.passAuthority <;> cases d <;>
      simp [step, hbeq, hsv, hsd, hpa] at h <;> simp [← h]

lemma runLoop_no_suspend_nonmem (name : String) (hname : name ≠ MemoryName) :
    ∀ (inputs : List (Bool × Option (List Nat))) (s : LoopState),
      Action.requestSuspend ∉ runLoop name inputs s := by
  intro inputs
  induction inputs with
  | nil => intro s; simp [runLoop]
  | cons p rest ih =>
    intro s
    obtain ⟨ext, d⟩ := p
    have hacts := step_no_suspend_nonmem name hname ext d s
    simp only [runLoop]
    cases hstep : step name ext d s with
    | mk acts os =>
      rw [hstep] at hacts
      cases os with
      | none => simpa using fun hmem => hacts hmem
      | some s2 =>
        simp only [List.mem_append]
        rintro (hmem | hmem)
        · exact hacts hmem
        · exact ih s2 hmem

lemma countSmall_cons (d : Option (List Nat)) (ds : List (Option (List Nat))) :
    countSmall (d :: ds) = countSmall ds + if smallDrain d then 1 else 0 := by
  simp [countSmall, List.countP_cons]

lemma runLoop_suspend_mem_iff (ds : List (Option (List Nat))) :
    ∀ s : LoopState, s.suspendVM = false → s.suspendedVM = false →
      s.passAuthority = false → s.subsequentSyncs ≤ 10 →
      (Action.requestSuspend ∈ runLoop MemoryName (noSignal ds) s ↔
        11 ≤ s.subsequentSyncs + countSmall ds) := by
  induction ds with
  | nil =>
    intro s _ _ _ hle
    simp [noSignal, runLoop, countSmall]
    omega
  | cons d rest ih =>
    intro s hsv hsd hpa hle
    have h0 : (s.suspendVM || false) = false := by simp [hsv]
    simp only [noSignal, List.map_cons, runLoop,
      step_normal MemoryName false d s hsd h0 hpa]
    cases d with
    | none =>
      have hcc : countSmall (none :: rest) = countSmall rest + 1 := by
        simp [countSmall_cons, smallDrain]
      rw [hcc]
      by_cases hsync : s.subsequentSyncs + 1 > 10
      · refine iff_of_true ?_ ?_
        · simp [hsync]
        · omega
      · have hrec := ih ⟨false, false, false, s.subsequentSyncs + 1⟩ rfl rfl rfl (by show s.subsequentSyncs + 1 ≤ 10; omega)
        simp only [noSignal] at hrec
        simp [hsync, hrec]
        omega
    | some val =>
      by_cases h200 : val.length ≤ 200
      · have hcc : countSmall (some val :: rest) = countSmall rest + 1 := by
          simp [countSmall_cons, smallDrain, h200]
        rw [hcc]
        by_cases hsync : s.subsequentSyncs + 1 > 10
        · refine iff_of_true ?_ ?_
          · simp [h200, hsync]
          · omega
        · have hrec := ih ⟨false, false, false, s.subsequentSyncs + 1⟩ rfl rfl rfl (by show s.subsequentSyncs + 1 ≤ 10; omega)
          simp only [noSignal] at hrec
          simp [h200, hsync, hrec]
          omega
      · have hcc : countSmall (some val :: rest) = countSmall rest := by
          simp [countSmall_cons, smallDrain, h200]
        rw [hcc]
        have hrec := ih ⟨false, false, false, s.subsequentSyncs⟩ rfl rfl rfl hle
        simp only [noSignal] at hrec
        simp [h200, hrec]

set_option maxRecDepth 40000 in
/-- C2: counterexample to the claim as stated.  The `subsequentSyncs`
counter in `main.go` is never reset by a large drain, so the code
requests suspension on the drain sequence `cexDrains` — 5 small drains,
one 201-block drain, 6 small drains — although at most 6 *consecutive*
small drains ever accumulate.  Under the claimed reading ("more than 10
consecutive small drains") no suspension would be requested here. -/
theorem suspend_requested_without_consecutive_small_drains :
    Action.requestSuspend ∈ runLoop MemoryName (noSignal cexDrains) initLoopState ∧
    maxConsecSmall cexDrains = 6 ∧ countSmall cexDrains = 11 := by
  decide

/-- C2 (amended): a drain is small exactly when it returns at most 200
blocks (a nil or empty drain counts as small, via `countSmall`); for the
`memory` device — whose goroutine never receives an external suspend
signal — suspension is requested iff the drain sequence contains at
least 11 small drains in total, consecutive or not; drains of any other
device never set the suspend flag and never change the
`subsequentSyncs` counter. -/
theorem small_drain_accumulation_triggers_suspend :
    (∀ ds : List (Option (List Nat)),
      Action.requestSuspend ∈ runLoop MemoryName (noSignal ds) initLoopState ↔
        11 ≤ countSmall ds) ∧
    (∀ (name : String) (inputs : List (Bool × Option (List Nat))) (s : LoopState),
      name ≠ MemoryName → Action.requestSuspend ∉ runLoop name inputs s) ∧
    (∀ (name : String) (ext : Bool) (d : Option (List Nat)) (s s2 : LoopState),
      name ≠ MemoryName → (step name ext d s).2 = some s2 →
      s2.subsequentSyncs = s.subsequentSyncs) := by
  refine ⟨?_, ?_, ?_⟩
  · intro ds
    simpa [initLoopState] using runLoop_suspend_mem_iff ds initLoopState rfl rfl rfl
      (by show (0 : Nat) ≤ 10; omega)
  · intro name inputs s hname
    exact runLoop_no_suspend_nonmem name hname inputs s
  · intro name ext d s s2 hname h
    exact step_syncs_nonmem name hname ext d s s2 h

/-- C4 (amended): when the source receives `NeedAt(offset, len)` with a
positive length and an offset inside the device (and a device size
representable in uint64), it calls `orderer.PrioritiseBlock` for exactly
the blocks covering `[offset, min(offset+len, size))`.  The amendment
excludes the degenerate frames of the counterexample: for `len = 0` the
uint64 computation `endOffset - 1` wraps, and for `offset ≥ size` the
clamped range is empty yet a block is still prioritised. -/
theorem needAt_prioritises_exactly_covered_blocks (size bs offset length b : Nat)
    (hbs : 0 < bs) (hlen : 0 < length) (hoff : offset < size) (hsz : size ≤ u64Mod) :
    b ∈ needAtBlocks size bs offset length ↔
      coversBlock bs offset (min (offset + length) size) b := by
  have hpos : 1 ≤ u64Mod := Nat.one_le_two_pow
  obtain ⟨e, he⟩ : ∃ x, min (offset + length) size = x := ⟨_, rfl⟩
  have hend1 : offset < e := by
    rw [← he, lt_min_iff]
    omega
  have hendle : e ≤ u64Mod := by
    rw [← he]
    exact le_trans (min_le_right _ _) hsz
  have hwrap : (e + (u64Mod - 1)) % u64Mod = e - 1 := by
    have h2 : e + (u64Mod - 1) = (e - 1) + u64Mod := by omega
    rw [h2, Nat.add_mod_right, Nat.mod_eq_of_lt (by omega)]
  have hse : offset / bs ≤ (e - 1) / bs := Nat.div_le_div_right (by omega)
  have hA : offset / bs ≤ b ↔ offset < (b + 1) * bs := by
    rw [← Nat.lt_succ_iff, Nat.div_lt_iff_lt_mul hbs]
  have hB : b ≤ (e - 1) / bs ↔ b * bs < e := by
    rw [Nat.le_div_iff_mul_le hbs]
    omega
  have hbb : b * bs < (b + 1) * bs :=
    mul_lt_mul_of_pos_right (Nat.lt_succ_self b) hbs
  simp only [needAtBlocks, he, List.mem_range'_1, coversBlock]
  rw [hwrap, max_lt_iff, lt_min_iff, lt_min_iff]
  have hrange : offset / bs + ((e - 1) / bs + 1 - offset / bs) = (e - 1) / bs + 1 := by
    omega
  rw [hrange]
  constructor
  · rintro ⟨ha, hb⟩
    have hb2 : b ≤ (e - 1) / bs := by omega
    exact ⟨⟨hend1, hA.mp ha⟩, hB.mp hb2, hbb⟩
  · rintro ⟨⟨_, ha⟩, hb, _⟩
    have hb2 : b ≤ (e - 1) / bs := hB.mpr hb
    refine ⟨hA.mpr ha, ?_⟩
    omega

/-- C4: counterexample to the claim as stated.  For `NeedAt(offset = 100,
len = 1)` on a device of size 100 with block size 64 the clamped range
`[100, 100)` is empty, so the claim mandates no `PrioritiseBlock` call at
all, but the code prioritises block 1. -/
theorem needAt_counterexample_degenerate_range :
    needAtBlocks 100 64 100 1 = [1] ∧
    ∀ b, ¬ coversBlock 64 100 (min (100 + 1) 100) b := by
  constructor
  · decide
  · intro b
    simp only [coversBlock]
    omega

/-- C4 witness: a `NeedAt` for bytes `[65536, 65538)` on a 1 MiB device
with 64 KiB block size prioritises exactly block 1. -/
theorem needAt_prioritises_exactly_covered_blocks_witness :
    1 ∈ needAtBlocks 1048576 65536 65536 2 :=
  (needAt_prioritises_exactly_covered_blocks 1048576 65536 65536 2 1
    (by decide) (by decide) (by decide) (by decide)).mpr (by decide)

/-- C3: the `DontNeedAt` handler divides by `eres.storage.Size()` instead
of the device's block size (a slip the spec flags): for
`DontNeedAt(offset = 128 KiB, len = 64 KiB)` on a 1 MiB device with
64 KiB blocks the code removes exactly block 0, while the claimed (and
spec-stated) semantics — division by `block_size` — removes exactly
block 2, the only block covering `[128 KiB, 192 KiB)`. -/
theorem dontNeedAt_uses_storage_size_not_block_size :
    dontNeedAtBlocks 1048576 65536 131072 65536 = [0] ∧
    dontNeedAtBlocksSpec 1048576 65536 131072 65536 = [2] ∧
    coversBlock 65536 131072 (min (131072 + 65536) 1048576) 2 ∧
    ¬ coversBlock 65536 131072 (min (131072 + 65536) 1048576) 0 := by
  refine ⟨by decide, by decide, by decide, by decide⟩

lemma subset_nodup_length_le {l1 l2 : List Nat} (h1 : l1.Nodup) (h2 : l2.Nodup)
    (hsub : ∀ a ∈ l1, a ∈ l2) : l1.length ≤ l2.length := by
  calc l1.length = l1.toFinset.card := (List.toFinset_card_of_nodup h1).symm
    _ ≤ l2.toFinset.card := by
        refine Finset.card_le_card ?_
        intro a ha
        rw [List.mem_toFinset] at *
        exact hsub a ha
    _ = l2.length := List.toFinset_card_of_nodup h2

lemma mem_of_subset_nodup_length_ge {l1 l2 : List Nat} (h1 : l1.Nodup) (h2 : l2.Nodup)
    (hsub : ∀ a ∈ l1, a ∈ l2) (hlen : l2.length ≤ l1.length) :
    ∀ a ∈ l2, a ∈ l1 := by
  have hfin : l1.toFinset = l2.toFinset := by
    refine Finset.eq_of_subset_of_card_le ?_ ?_
    · intro a ha
      rw [List.mem_toFinset] at *
      exact hsub a ha
    · rw [List.toFinset_card_of_nodup h1, List.toFinset_card_of_nodup h2]
      exact hlen
  intro a ha
  rw [← List.mem_toFinset, hfin, List.mem_toFinset]
  exact ha

lemma wf_idx_facts : ∀ (es : List DestEvent) (seenD seenA : List Nat) (sawA : Bool),
    wfCheck seenD seenA sawA es = true →
    (devIdxs es).Nodup ∧ (∀ i ∈ devIdxs es, i ∉ seenD) ∧
    (authIdxs es).Nodup ∧ (∀ i ∈ authIdxs es, i ∉ seenA) ∧
    (∀ i ∈ authIdxs es, i ∈ seenD ∨ i ∈ devIdxs es) := by
  intro es
  induction es with
  | nil => intro seenD seenA sawA _; simp [devIdxs, authIdxs]
  | cons e rest ih =>
    intro seenD seenA sawA h
    cases e with
    | devInfo i n =>
      rw [wfCheck] at h
      simp only [Bool.and_eq_true, Bool.not_eq_true', decide_eq_true_eq] at h
      obtain ⟨⟨hsaw, hmem⟩, hrec⟩ := h
      obtain ⟨hdn, hds, han, has, hsub⟩ := ih (i :: seenD) seenA sawA hrec
      refine ⟨?_, ?_, han, has, ?_⟩
      · rw [devIdxs, List.nodup_cons]
        exact ⟨fun hc => (hds i hc) (by simp), hdn⟩
      · intro j hj
        rw [devIdxs] at hj
        rcases List.mem_cons.mp hj with hj | hj
        · subst hj; exact hmem
        · intro hc
          exact hds j hj (by simp [hc])
      · intro j hj
        rw [authIdxs] at hj  -- authIdxs (devInfo :: rest) = authIdxs rest
        rcases hsub j hj with hc | hc
        · rcases List.mem_cons.mp hc with hc | hc
          · right; rw [devIdxs]; simp [hc]
          · left; exact hc
        · right; rw [devIdxs]; simp [hc]
    | assumeAuthority i =>
      rw [wfCheck] at h
      simp only [Bool.and_eq_true, decide_eq_true_eq] at h
      obtain ⟨⟨hd, hna⟩, hrec⟩ := h
      obtain ⟨hdn, hds, han, has, hsub⟩ := ih seenD (i :: seenA) true hrec
      refine ⟨hdn, hds, ?_, ?_, ?_⟩
      · rw [authIdxs, List.nodup_cons]
        exact ⟨fun hc => (has i hc) (by simp), han⟩
      · intro j hj
        rw [authIdxs] at hj
        rcases List.mem_cons.mp hj with hj | hj
        · subst hj; exact hna
        · intro hc
          exact has j hj (by simp [hc])
      · intro j hj
        rw [authIdxs] at hj
        rcases List.mem_cons.mp hj with hj | hj
        · subst hj; left; exact hd
        · rcases hsub j hj with hc | hc
          · left; exact hc
          · right; rwa [devIdxs]
    | allDevicesSent =>
      rw [wfCheck] at h
      obtain ⟨hdn, hds, han, has, hsub⟩ := ih seenD seenA sawA h
      exact ⟨by rwa [devIdxs], by rw [devIdxs]; exact hds,
        by rwa [authIdxs], by rw [authIdxs]; exact has,
        by rw [authIdxs, devIdxs]; exact hsub⟩
    | completed i =>
      rw [wfCheck] at h
      obtain ⟨hdn, hds, han, has, hsub⟩ := ih seenD seenA sawA h
      exact ⟨by rwa [devIdxs], by rw [devIdxs]; exact hds,
        by rwa [authIdxs], by rw [authIdxs]; exact has,
        by rw [authIdxs, devIdxs]; exact hsub⟩


lemma wf_run_ready : ∀ (es : List DestEvent) (seenD seenA : List Nat) (sawA : Bool)
    (s : DestState),
    wfCheck seenD seenA sawA es = true →
    seenD.Nodup → seenA.Nodup → (∀ a ∈ seenA, a ∈ seenD) →
    (sawA = false → seenA = []) →
    s.receivedButNotReady = (seenD.length : Int) - (seenA.length : Int) →
    (s.allReadyFired = true ↔ (0 < seenA.length ∧ seenA.length = seenD.length)) →
    ((runDestFrom s es).1.allReadyFired = true ↔
      (0 < seenA.length + (authIdxs es).length ∧
        seenA.length + (authIdxs es).length = seenD.length + (devIdxs es).length)) := by
  intro es
  induction es with
  | nil =>
    intro seenD seenA sawA s _ _ _ _ _ _ hfire
    simp only [runDestFrom, authIdxs, devIdxs, List.length_nil]
    simpa using hfire
  | cons e rest ih =>
    intro seenD seenA sawA s h hDn hAn hsubA h0 hcnt hfire
    cases e with
    | devInfo i n =>
      rw [wfCheck] at h
      simp only [Bool.and_eq_true, Bool.not_eq_true', decide_eq_true_eq] at h
      obtain ⟨⟨hsaw, hmem⟩, hrec⟩ := h
      have hA0 : seenA = [] := h0 hsaw
      subst hA0
      simp only [runDestFrom, destStep]
      have hres := ih (i :: seenD) [] sawA
        { s with receivedButNotReady := s.receivedButNotReady + 1 }
        hrec (List.nodup_cons.mpr ⟨hmem, hDn⟩) List.nodup_nil (by simp)
        (fun _ => rfl)
        (by simp [hcnt] <;> omega)
        (by simpa using hfire)
      simp only [List.length_nil, List.length_cons] at hres ⊢
      rw [hres]
      simp only [authIdxs, devIdxs, List.length_cons]
      omega
    | assumeAuthority i =>
      rw [wfCheck] at h
      simp only [Bool.and_eq_true, decide_eq_true_eq] at h
      obtain ⟨⟨hd, hna⟩, hrec⟩ := h
      have hAn2 : (i :: seenA).Nodup := List.nodup_cons.mpr ⟨hna, hAn⟩
      have hsubA2 : ∀ a ∈ i :: seenA, a ∈ seenD := by
        intro a ha
        rcases List.mem_cons.mp ha with ha | ha
        · subst ha; exact hd
        · exact hsubA a ha
      have hlen : (i :: seenA).length ≤ seenD.length :=
        subset_nodup_length_le hAn2 hDn hsubA2
      simp only [List.length_cons] at hlen
      simp only [runDestFrom, destStep]
      by_cases hc : s.receivedButNotReady - 1 ≤ 0
      · have hD : seenD.length = seenA.length + 1 := by
          rw [hcnt] at hc
          omega
        rw [if_pos hc]
        have hres := ih seenD (i :: seenA) true
          { s with receivedButNotReady := s.receivedButNotReady - 1,
                   allReadyFired := true }
          hrec hDn hAn2 hsubA2 (by simp)
          (by simp [hcnt] <;> omega)
          (by simp [List.length_cons] <;> omega)
        simp only [List.length_cons] at hres ⊢
        rw [hres]
        simp only [authIdxs, devIdxs, List.length_cons]
        omega
      · have hD : seenA.length + 1 < seenD.length := by
          rw [hcnt] at hc
          omega
        have hfalse : s.allReadyFired = false := by
          by_contra hcon
          have hb : s.allReadyFired = true := by
            revert hcon
            cases s.allReadyFired <;> simp
          obtain ⟨hpos, heq⟩ := hfire.mp hb
          omega
        rw [if_neg hc]
        have hres := ih seenD (i :: seenA) true
          { s with receivedButNotReady := s.receivedButNotReady - 1 }
          hrec hDn hAn2 hsubA2 (by simp)
          (by simp [hcnt] <;> omega)
          (by simp [hfalse, List.length_cons] <;> omega)
        simp only [List.length_cons] at hres ⊢
        rw [hres]
        simp only [authIdxs, devIdxs, List.length_cons]
        omega
    | allDevicesSent =>
      rw [wfCheck] at h
      simp only [runDestFrom, destStep]
      have hres := ih seenD seenA sawA { s with allReceivedFired := true }
        h hDn hAn hsubA h0 (by simpa using hcnt) (by simpa using hfire)
      rw [hres]
      simp only [authIdxs, devIdxs]
    | completed i =>
      rw [wfCheck] at h
      simp only [runDestFrom, destStep]
      have hres := ih seenD seenA sawA s h hDn hAn hsubA h0 hcnt hfire
      rw [hres]
      simp only [authIdxs, devIdxs]


lemma devIdxs_nil_of_no_devInfo : ∀ l : List DestEvent,
    l.all (fun e => !isDevInfo e) = true → devIdxs l = [] := by
  intro l
  induction l with
  | nil => intro _; rfl
  | cons a rest ih =>
    intro h
    simp only [List.all_cons, Bool.and_eq_true] at h
    cases a with
    | devInfo i n => simp [isDevInfo] at h
    | assumeAuthority i => rw [devIdxs]; exact ih h.2
    | allDevicesSent => rw [devIdxs]; exact ih h.2
    | completed i => rw [devIdxs]; exact ih h.2

lemma devIdxs_append (l1 l2 : List DestEvent) :
    devIdxs (l1 ++ l2) = devIdxs l1 ++ devIdxs l2 := by
  induction l1 with
  | nil => rfl
  | cons a rest ih =>
    cases a <;> simp [devIdxs, ih, List.cons_append]

lemma devInfoBeforeSent_split : ∀ es : List DestEvent,
    devInfoBeforeSent es = true →
    ∀ pre post, es = pre ++ DestEvent.allDevicesSent :: post →
      post.all (fun e => !isDevInfo e) = true := by
  intro es
  induction es with
  | nil =>
    intro _ pre post heq
    exact absurd heq (by simp)
  | cons a rest ih =>
    intro h pre post heq
    cases pre with
    | nil =>
      simp only [List.nil_append, List.cons.injEq] at heq
      obtain ⟨ha, hr⟩ := heq
      subst ha
      rw [devInfoBeforeSent] at h
      simp only [Bool.and_eq_true] at h
      rw [← hr]
      exact h.1
    | cons b pre2 =>
      simp only [List.cons_append, List.cons.injEq] at heq
      obtain ⟨hab, hrest⟩ := heq
      subst hab
      cases a with
      | devInfo i n => exact ih (by rwa [devInfoBeforeSent] at h) pre2 post hrest
      | assumeAuthority i => exact ih (by rwa [devInfoBeforeSent] at h) pre2 post hrest
      | completed i => exact ih (by rwa [devInfoBeforeSent] at h) pre2 post hrest
      | allDevicesSent =>
        rw [devInfoBeforeSent] at h
        simp only [Bool.and_eq_true] at h
        exact ih h.2 pre2 post hrest

/-- C5: on the destination, (i) the all-devices-ready signal
(`cancelAllDevicesReadyCtx`) has fired after a well-formed event stream
exactly when at least one authority event arrived and the
received-but-not-yet-authoritative count — announced devices minus
authority-transferred devices — has reached zero; (ii) whenever
`MigrateFrom` has returned (both the all-devices-received and the
all-devices-ready contexts cancelled), every device that announced
itself via `DevInfo` has received its `AssumeAuthority` event; (iii) the
per-device authority hook fires on each `AssumeAuthority` event; and
(iv) the ready signal fires only on an `AssumeAuthority` event that
takes the counter to zero or below, and only once. -/
theorem migrate_from_requires_all_authorities (es : List DestEvent)
    (hwf : wfStream es = true) :
    ((runDest es).1.allReadyFired = true ↔
      (0 < (authIdxs es).length ∧ (authIdxs es).length = (devIdxs es).length)) ∧
    (migrateFromReturned es = true → ∀ i ∈ devIdxs es, i ∈ authIdxs es) ∧
    (∀ (s : DestState) (i : Nat),
      DestHook.deviceAuthorityReceived i ∈ (destStep s (DestEvent.assumeAuthority i)).2) ∧
    (∀ (s : DestState) (e : DestEvent),
      DestHook.allDevicesReady ∈ (destStep s e).2 →
      isAuthority e = true ∧ s.receivedButNotReady ≤ 1 ∧ s.allReadyFired = false) := by
  obtain ⟨hdn, -, han, -, hsub0⟩ := wf_idx_facts es [] [] false hwf
  have hsub : ∀ i ∈ authIdxs es, i ∈ devIdxs es := by
    intro i hi
    rcases hsub0 i hi with hc | hc
    · exact absurd hc (by simp)
    · exact hc
  have hready := wf_run_ready es [] [] false initDestState hwf
    List.nodup_nil List.nodup_nil (by simp) (fun _ => rfl)
    (by simp [initDestState]) (by simp [initDestState])
  simp only [List.length_nil, Nat.zero_add] at hready
  refine ⟨hready, ?_, ?_, ?_⟩
  · intro hret i hi
    rw [migrateFromReturned, Bool.and_eq_true] at hret
    obtain ⟨hpos, heq⟩ := hready.mp hret.2
    exact mem_of_subset_nodup_length_ge han hdn hsub (by omega) i hi
  · intro s i
    by_cases hc : s.receivedButNotReady - 1 ≤ 0 <;> simp [destStep, hc]
  · intro s e hmem
    cases e with
    | devInfo i n => simp [destStep] at hmem
    | allDevicesSent => simp [destStep] at hmem
    | completed i => simp [destStep] at hmem
    | assumeAuthority i =>
      by_cases hc : s.receivedButNotReady - 1 ≤ 0
      · by_cases hf : s.allReadyFired
        · simp [destStep, hc, hf] at hmem
        · refine ⟨rfl, by omega, by simpa using hf⟩
      · simp [destStep, hc] at hmem

/-- C5 witness: a two-device stream where both devices announce, the
source declares all devices sent, and both authorities arrive; device 0
is then among the authority-transferred devices. -/
theorem migrate_from_requires_all_authorities_witness :
    0 ∈ authIdxs [DestEvent.devInfo 0 "w", DestEvent.devInfo 1 "x",
      DestEvent.allDevicesSent, DestEvent.assumeAuthority 1,
      DestEvent.assumeAuthority 0] :=
  (migrate_from_requires_all_authorities _ (by decide)).2.1 (by decide) 0 (by decide)

/-- C6: the `OnAllDevicesReceived` hook fires only when an
`AllDevicesSent` event is processed, and — provided the source announces
every device before declaring all devices sent — at each such point the
set of announced devices is already complete: the devices announced in
the whole stream are exactly those announced before the event. -/
theorem all_devices_received_after_every_devinfo (es : List DestEvent)
    (h : devInfoBeforeSent es = true) :
    (∀ (s : DestState) (e : DestEvent),
      DestHook.allDevicesReceived ∈ (destStep s e).2 →
      e = DestEvent.allDevicesSent) ∧
    (∀ pre post : List DestEvent,
      es = pre ++ DestEvent.allDevicesSent :: post → devIdxs es = devIdxs pre) := by
  constructor
  · intro s e hmem
    cases e with
    | devInfo i n => simp [destStep] at hmem
    | allDevicesSent => rfl
    | completed i => simp [destStep] at hmem
    | assumeAuthority i =>
      by_cases hc : s.receivedButNotReady - 1 ≤ 0 <;>
        by_cases hf : s.allReadyFired <;>
          simp [destStep, hc, hf] at hmem
  · intro pre post heq
    have hpost := devInfoBeforeSent_split es h pre post heq
    rw [heq, devIdxs_append, devIdxs, devIdxs_nil_of_no_devInfo post hpost,
      List.append_nil]

/-- C6 witness: after one announcement followed by `AllDevicesSent`, the
announced devices are exactly those before the event. -/
theorem all_devices_received_after_every_devinfo_witness :
    devIdxs [DestEvent.devInfo 3 "y", DestEvent.allDevicesSent] =
      devIdxs [DestEvent.devInfo 3 "y"] :=
  (all_devices_received_after_every_devinfo _ (by decide)).2
    [DestEvent.devInfo 3 "y"] [] rfl

lemma pushDefers_eq (base items : List (TeardownStep × Option String)) :
    pushDefers base items = items.reverse ++ base := by
  induction items generalizing base with
  | nil => rfl
  | cons a rest ih =>
    have h1 : pushDefers base (a :: rest) = pushDefers (a :: base) rest := rfl
    rw [h1, ih]
    simp

lemma execDefers_append (l1 l2 : List (TeardownStep × Option String)) :
    execDefers (l1 ++ l2) =
      ((execDefers l1).1 ++ (execDefers l2).1,
        (execDefers l1).2 ++ (execDefers l2).2) := by
  induction l1 with
  | nil => simp [execDefers]
  | cons a rest ih =>
    obtain ⟨st, e⟩ := a
    simp [execDefers, ih]

lemma execDefers_mapped (l : List (Nat × Option String)) :
    execDefers (l.map (fun f => (TeardownStep.deviceClose f.1, f.2))) =
      (l.map (fun f => TeardownStep.deviceClose f.1), l.filterMap (fun f => f.2)) := by
  induction l with
  | nil => rfl
  | cons a rest ih =>
    obtain ⟨i, e⟩ := a
    cases e <;> simp [execDefers, ih, List.filterMap_cons, Option.toList]

/-- C7: on either termination path of a destination session the watcher
invokes `migratedPeer.Close`, which (i) runs the runner close, then
every registered device close/shutdown function (in reverse registration
order), then `Wait`; (ii) returns the single aggregated error value
containing exactly the sub-failures observed, in that order; and so
(iii) every registered device close function is invoked. -/
theorem close_releases_all_devices_with_one_error (p : TerminationPath)
    (inp : CloseInput) :
    (teardown p inp).1 =
      TeardownStep.runnerClose ::
        (inp.deviceCloseFuncs.reverse.map (fun f => TeardownStep.deviceClose f.1) ++
          [TeardownStep.waitCall]) ∧
    (teardown p inp).2 =
      inp.runnerErr.toList ++
        inp.deviceCloseFuncs.reverse.filterMap (fun f => f.2) ++
        inp.waitErr.toList ∧
    ∀ f ∈ inp.deviceCloseFuncs, TeardownStep.deviceClose f.1 ∈ (teardown p inp).1 := by
  have hclose : migratedPeerClose inp =
      (TeardownStep.runnerClose ::
        (inp.deviceCloseFuncs.reverse.map (fun f => TeardownStep.deviceClose f.1) ++
          [TeardownStep.waitCall]),
       inp.runnerErr.toList ++
        inp.deviceCloseFuncs.reverse.filterMap (fun f => f.2) ++
        inp.waitErr.toList) := by
    rw [migratedPeerClose, pushDefers_eq, ← List.map_reverse, execDefers_append,
      execDefers_mapped]
    simp [execDefers, List.append_assoc]
  have hpath : teardown p inp = migratedPeerClose inp := by
    cases p <;> rfl
  rw [hpath, hclose]
  refine ⟨rfl, rfl, ?_⟩
  intro f hf
  simp only [List.mem_cons, List.mem_append, List.mem_map, List.mem_reverse]
  exact Or.inr (Or.inl ⟨f, hf, rfl⟩)

/-- C8: a `DevInfo` frame whose device name is none of the six fixed
names resolves to an empty backing path, so the DevInfo callback fails
with the unknown-device error before any directory or backing file is
created (the `.error` result carries no effects). -/
theorem unknown_device_name_rejected (paths : PeerPaths) (name : String)
    (size : Nat)
    (h : name ∉ [StateName, MemoryName, DiskName, InitramfsName, KernelName,
      ConfigName]) :
    receiveDevInfo paths name size = .error ErrUnknownDeviceName := by
  simp only [List.mem_cons, not_or] at h
  obtain ⟨h1, h2, h3, h4, h5, h6, -⟩ := h
  rw [receiveDevInfo, lookupDevicePath]
  rw [if_neg h6, if_neg h3, if_neg h4, if_neg h5, if_neg h2, if_neg h1,
    if_pos (by decide : ("" : String).data.all Char.isWhitespace = true)]

/-- C8 witness: the name `floppy` is rejected with the unknown-device
error. -/
theorem unknown_device_name_rejected_witness :
    receiveDevInfo ⟨"s", "m", "i", "k", "d", "c"⟩ "floppy" 4096 =
      .error ErrUnknownDeviceName :=
  unknown_device_name_rejected ⟨"s", "m", "i", "k", "d", "c"⟩ "floppy" 4096
    (by decide)

/-- C10: once the migration protocol context is cancelled, both Waiting
Cache hint callbacks are no-ops: they forward nothing to the source and
raise no error, whatever the hint offsets and whatever error the
protocol send would have returned. -/
theorem hint_hooks_noop_after_cancel (cancelled : Bool)
    (sendErr : Option String) (offset length : Int) (h : cancelled = true) :
    needAtHook cancelled sendErr offset length = ([], none) ∧
    dontNeedAtHook cancelled sendErr offset length = ([], none) := by
  subst h
  simp [needAtHook, dontNeedAtHook]

/-- C10 witness: with the context cancelled, a `NeedAt(5, 7)` and a
`DontNeedAt(5, 7)` hint send nothing and raise nothing, even though the
protocol send would have errored. -/
theorem hint_hooks_noop_after_cancel_witness :
    needAtHook true (some "protocol closed") 5 7 = ([], none) ∧
    dontNeedAtHook true (some "protocol closed") 5 7 = ([], none) :=
  hint_hooks_noop_after_cancel true (some "protocol closed") 5 7 rfl

end Drafter
